import Mathlib

/-!
Verification of the ingestio media-import pipeline (`src/fileProcessor.js`,
`src/config.js`, `src/cli.js`) against its natural-language specification.

Strings are modelled as lists of characters (`Str`).  Node's `path` helpers
(`join`, `basename`, `dirname`, `extname`) are modelled for POSIX paths in
normal form (no trailing separators), which is the shape of every path the
pipeline builds.  JavaScript `Date` values are modelled as instants: seconds
since the Unix epoch (the pipeline only ever formats whole seconds).  The
host environment's local time zone, which `Date.prototype.toTimeString`
consults, is an explicit offset parameter (minutes west of UTC, as returned
by `getTimezoneOffset`).
-/

abbrev Str := List Char

/-- The character `{`, written via its code point. -/
def lbraceChar : Char := Char.ofNat 123

/-- The character `}`, written via its code point. -/
def rbraceChar : Char := Char.ofNat 125

/-- Node `path.join(a, b)` for normal-form segments. -/
def joinP (a b : Str) : Str :=
  if a = [] then b else a ++ '/' :: b

/-- Node `path.basename(p)`: the part after the last separator. -/
def basenameL (p : Str) : Str :=
  (p.reverse.takeWhile (fun c => c ≠ '/')).reverse

/-- Node `path.dirname(p)`: everything before the last separator,
`"."` when there is none, `"/"` for a top-level entry. -/
def dirnameL (p : Str) : Str :=
  if p.contains '/' then
    let pre := (p.reverse.dropWhile (fun c => c ≠ '/')).reverse.dropLast
    if pre = [] then ['/'] else pre
  else ['.']

/-- Node `path.extname(p)`: from the last `.` of the basename to the end;
empty when the basename has no `.` or starts with its only `.`. -/
def extnameL (p : Str) : Str :=
  let b := basenameL p
  let afterDot := b.reverse.takeWhile (fun c => c ≠ '.')
  if afterDot.length = b.length then []
  else
    let ext := '.' :: afterDot.reverse
    if ext.length = b.length then [] else ext

/-- Node `path.basename(p, ext)`: `basenameL` with the suffix `ext`
removed when it is a proper suffix. -/
def basenameDropExt (p ext : Str) : Str :=
  let b := basenameL p
  if ext ≠ [] ∧ ext ≠ b ∧ ext.isSuffixOf b then b.take (b.length - ext.length) else b

/-- JavaScript `String.prototype.toLowerCase` restricted to ASCII, which is
all the pipeline feeds it (file extensions). -/
def toLowerL (s : Str) : Str := s.map Char.toLower

/-- JavaScript `String.prototype.replace(pattern, r)` with a *string*
pattern: replace only the first occurrence; the replacement strings used by
the pipeline contain no `$` so no substitution patterns arise. -/
def replaceFirst (p r : Str) : Str → Str
  | [] => if p = [] then r else []
  | c :: cs =>
      if p.isPrefixOf (c :: cs) then r ++ (c :: cs).drop p.length
      else c :: replaceFirst p r cs

/-- JavaScript `String.prototype.replace(/c/g, d)` for single characters:
replace every occurrence. -/
def replaceAllChar (c d : Char) (s : Str) : Str :=
  s.map (fun x => if x = c then d else x)

/-- `true` iff `p` occurs as a contiguous substring of `s`
(JavaScript `String.prototype.includes`). -/
def containsSub (s p : Str) : Bool :=
  p.isPrefixOf s ||
    (match s with
     | [] => false
     | _ :: cs => containsSub cs p)

/-- The decimal digit character for `n % 10`. -/
def digitChar (n : Nat) : Char :=
  match n % 10 with
  | 0 => '0' | 1 => '1' | 2 => '2' | 3 => '3' | 4 => '4'
  | 5 => '5' | 6 => '6' | 7 => '7' | 8 => '8' | _ => '9'

/-- Helper for `natToDigits`: structurally recursive on fuel so the kernel
can evaluate it; `fuel ≥ 1 + digit count` always holds for `fuel = n + 1`. -/
def natToDigitsAux : Nat → Nat → Str → Str
  | 0, _, acc => acc
  | fuel + 1, n, acc =>
    if n < 10 then digitChar n :: acc
    else natToDigitsAux fuel (n / 10) (digitChar n :: acc)

/-- Decimal rendering of a natural number (JavaScript number-to-string for
the collision counter). -/
def natToDigits (n : Nat) : Str := natToDigitsAux (n + 1) n []

/-- Two-digit zero-padded rendering (valid for `n ≤ 99`). -/
def pad2 (n : Nat) : Str := [digitChar (n / 10), digitChar n]

/-- Four-digit zero-padded rendering (valid for `n ≤ 9999`). -/
def pad4 (n : Nat) : Str :=
  [digitChar (n / 1000), digitChar (n / 100), digitChar (n / 10), digitChar n]

/-- A valid JavaScript `Date`: an instant, as whole seconds since the Unix
epoch (pre-1970 instants do not arise from camera media). -/
structure JSDate where
  epochSec : Nat
deriving DecidableEq, Repr

/-- Proleptic-Gregorian civil date from a count of days since 1970-01-01
(the classic era-based conversion used by every date library). -/
def civilFromDays (z : Nat) : Nat × Nat × Nat :=
  let z' := z + 719468
  let era := z' / 146097
  let doe := z' % 146097
  let yoe := (doe - doe / 1460 + doe / 36524 - doe / 146096) / 365
  let y := yoe + era * 400
  let doy := doe - (365 * yoe + yoe / 4 - yoe / 100)
  let mp := (5 * doy + 2) / 153
  let d := doy - (153 * mp + 2) / 5 + 1
  let m := if mp < 10 then mp + 3 else mp - 9
  if m ≤ 2 then (y + 1, m, d) else (y, m, d)

/-- The `YYYY-MM-DD` part of `Date.prototype.toISOString`: computed from
the instant in UTC, with no local-time-zone involvement. -/
def isoDateStr (d : JSDate) : Str :=
  let c := civilFromDays (d.epochSec / 86400)
  pad4 c.1 ++ '-' :: pad2 c.2.1 ++ '-' :: pad2 c.2.2

/-- Local second-of-day of an instant in the environment whose time zone is
`offMin` minutes west of UTC (`Date.prototype.getTimezoneOffset`). -/
def localSecOfDay (offMin : Int) (d : JSDate) : Nat :=
  (((d.epochSec : Int) - offMin * 60).emod 86400).toNat

/-- The `HH:MM:SS` part of `Date.prototype.toTimeString`: the instant
converted to the environment's local time zone. -/
def timeHMS (offMin : Int) (d : JSDate) : Str :=
  let sod := localSecOfDay offMin d
  pad2 (sod / 3600) ++ ':' :: pad2 (sod % 3600 / 60) ++ ':' :: pad2 (sod % 60)

/-- The result record of `generateTargetPath`. -/
structure TargetPath where
  targetDir : Str
  baseFilename : Str
deriving DecidableEq, Repr

/-- `generateTargetPath` (src/fileProcessor.js:111-125).  `offMin` is the
host environment's local-time-zone offset, consulted by `toTimeString`;
everything else mirrors the source line by line:
`dateStr = date.toISOString().split('T')[0]`,
`timeStr = date.toTimeString().split(' ')[0].replace(/:/g, '-')`,
`targetDir = join(destinationRoot, dateStr)`, and the base filename is the
template with `{date}`, `{time}`, `{camera}` substituted in that order by
JavaScript single-occurrence string `replace`, with the original
extension appended. -/
def generateTargetPath (offMin : Int) (date : JSDate)
    (cameraLabel originalPath destinationRoot filenameFormat : Str) :
    TargetPath :=
  let dateStr := isoDateStr date
  let timeStr := replaceAllChar ':' '-' (timeHMS offMin date)
  let ext := extnameL originalPath
  let targetDir := joinP destinationRoot dateStr
  let baseFilename :=
    replaceFirst ("{camera}".data) cameraLabel
      (replaceFirst ("{time}".data) timeStr
        (replaceFirst ("{date}".data) dateStr filenameFormat)) ++ ext
  ⟨targetDir, baseFilename⟩

example :
    (generateTargetPath 0 ⟨0⟩ ("CAM".data) ("/a/b.JPG".data) ("dst".data)
      ("{date}_{time}_{camera}".data)).baseFilename
      = "1970-01-01_00-00-00_CAM.JPG".data := by decide

example :
    (generateTargetPath 0 ⟨1751811174⟩ ("DJI".data) ("/a/c.MP4".data)
      ("dst".data) ("{date}_{time}_{camera}".data)).baseFilename
      = "2025-07-06_14-12-54_DJI.MP4".data := by decide

example : extnameL ("a.tar.gz".data) = ".gz".data := by decide
example : extnameL (".srt".data) = [] := by decide
example : extnameL ("/x/noext".data) = [] := by decide
example : dirnameL ("/a/b.txt".data) = "/a".data := by decide
example : dirnameL ("b.txt".data) = ".".data := by decide
example : basenameDropExt ("a.tar.gz".data) (".gz".data) = "a.tar".data := by decide

/-! ### Lemmas about single-occurrence string replacement -/

theorem replaceFirst_append_self (p r t : Str) :
    replaceFirst p r (p ++ t) = r ++ t := by
  cases p with
  | nil =>
    cases t with
    | nil => simp [replaceFirst]
    | cons c cs => simp [replaceFirst, List.isPrefixOf]
  | cons a as =>
    have hpre : (a :: as).isPrefixOf ((a :: as) ++ t) :=
      List.isPrefixOf_iff_prefix.mpr (List.prefix_append _ _)
    simp only [List.cons_append] at hpre ⊢
    rw [replaceFirst, if_pos hpre, ← List.cons_append, List.drop_left]

theorem replaceFirst_of_containsSub_false (p r : Str) :
    ∀ s : Str, containsSub s p = false → replaceFirst p r s = s := by
  intro s
  induction s with
  | nil =>
    intro h
    rw [containsSub] at h
    rcases Bool.or_eq_false_iff.mp h with ⟨h1, _⟩
    have hp : p ≠ [] := by
      intro he
      rw [he] at h1
      simp [List.isPrefixOf] at h1
    simp [replaceFirst, hp]
  | cons c cs ih =>
    intro h
    rw [containsSub] at h
    rcases Bool.or_eq_false_iff.mp h with ⟨h1, h2⟩
    rw [replaceFirst, if_neg (by simp [h1]), ih h2]

theorem containsSub_append_false_of_head_lbrace (p t : Str)
    (hp : p.head? = some lbraceChar) (ht : containsSub t p = false) :
    ∀ s : Str, lbraceChar ∉ s → containsSub (s ++ t) p = false := by
  obtain ⟨p', hp'⟩ : ∃ p', p = lbraceChar :: p' := by
    cases p with
    | nil => simp at hp
    | cons a as =>
      simp only [List.head?_cons, Option.some.injEq] at hp
      exact ⟨as, by rw [hp]⟩
  subst hp'
  intro s
  induction s with
  | nil => intro _; simpa using ht
  | cons a as ih =>
    intro h
    have hne : a ≠ lbraceChar := fun he => h (he ▸ List.mem_cons_self a as)
    rw [List.cons_append, containsSub]
    have h1 : (lbraceChar :: p').isPrefixOf (a :: (as ++ t)) = false := by
      simp [List.isPrefixOf]
      intro he
      exact absurd he.symm hne
    rw [h1, ih (fun hm => h (List.mem_cons_of_mem _ hm))]
    rfl

theorem containsSub_false_of_head_lbrace (p : Str)
    (hp : p.head? = some lbraceChar) :
    ∀ s : Str, lbraceChar ∉ s → containsSub s p = false := by
  intro s hs
  have h0 : containsSub [] p = false := by
    cases p with
    | nil => simp at hp
    | cons a as => simp [containsSub, List.isPrefixOf]
  simpa using containsSub_append_false_of_head_lbrace p [] hp h0 s hs

/-! ### The date and time strings contain no placeholder characters -/

theorem digitChar_ne_lbrace (n : Nat) : digitChar n ≠ lbraceChar := by
  unfold digitChar
  split <;> decide

theorem lbrace_notMem_pad2 (n : Nat) : lbraceChar ∉ pad2 n := by
  intro h
  rcases List.mem_cons.mp h with h1 | h1
  · exact digitChar_ne_lbrace _ h1.symm
  · rcases List.mem_cons.mp h1 with h2 | h2
    · exact digitChar_ne_lbrace _ h2.symm
    · simp at h2

theorem lbrace_notMem_pad4 (n : Nat) : lbraceChar ∉ pad4 n := by
  intro h
  rcases List.mem_cons.mp h with h1 | h1
  · exact digitChar_ne_lbrace _ h1.symm
  rcases List.mem_cons.mp h1 with h2 | h2
  · exact digitChar_ne_lbrace _ h2.symm
  rcases List.mem_cons.mp h2 with h3 | h3
  · exact digitChar_ne_lbrace _ h3.symm
  rcases List.mem_cons.mp h3 with h4 | h4
  · exact digitChar_ne_lbrace _ h4.symm
  · simp at h4

theorem lbrace_notMem_isoDateStr (d : JSDate) : lbraceChar ∉ isoDateStr d := by
  unfold isoDateStr
  intro h
  rcases List.mem_append.mp h with h1 | h1
  · rcases List.mem_append.mp h1 with h2 | h2
    · exact lbrace_notMem_pad4 _ h2
    · rcases List.mem_cons.mp h2 with h3 | h3
      · exact absurd h3 (by decide)
      · exact lbrace_notMem_pad2 _ h3
  · rcases List.mem_cons.mp h1 with h2 | h2
    · exact absurd h2 (by decide)
    · exact lbrace_notMem_pad2 _ h2

theorem lbrace_notMem_timeHMS (off : Int) (d : JSDate) :
    lbraceChar ∉ timeHMS off d := by
  unfold timeHMS
  intro h
  rcases List.mem_append.mp h with h1 | h1
  · rcases List.mem_append.mp h1 with h2 | h2
    · exact lbrace_notMem_pad2 _ h2
    · rcases List.mem_cons.mp h2 with h3 | h3
      · exact absurd h3 (by decide)
      · exact lbrace_notMem_pad2 _ h3
  · rcases List.mem_cons.mp h1 with h2 | h2
    · exact absurd h2 (by decide)
    · exact lbrace_notMem_pad2 _ h2

theorem lbrace_notMem_hyphenTime (off : Int) (d : JSDate) :
    lbraceChar ∉ replaceAllChar ':' '-' (timeHMS off d) := by
  intro h
  unfold replaceAllChar at h
  rcases List.mem_map.mp h with ⟨x, hx, hfx⟩
  by_cases hc : x = ':'
  · rw [if_pos hc] at hfx
    exact absurd hfx (by decide)
  · rw [if_neg hc] at hfx
    rw [hfx] at hx
    exact lbrace_notMem_timeHMS off d hx

theorem generateTargetPath_targetDir (off : Int) (date : JSDate)
    (cam path root tpl : Str) :
    (generateTargetPath off date cam path root tpl).targetDir
      = joinP root (isoDateStr date) := rfl

theorem generateTargetPath_baseFilename (off : Int) (date : JSDate)
    (cam path root tpl : Str) :
    (generateTargetPath off date cam path root tpl).baseFilename
      = replaceFirst ("{camera}".data) cam
          (replaceFirst ("{time}".data)
            (replaceAllChar ':' '-' (timeHMS off date))
            (replaceFirst ("{date}".data) (isoDateStr date) tpl))
        ++ extnameL path := rfl

/-- C1: the claim that **both** the `{date}` and `{time}` substitution
strings are computed with no local-time-zone conversion is false: for the
instant 0 the `{time}` string differs between an environment at UTC and an
environment one hour east of UTC, because `toTimeString` converts to local
time. -/
theorem c1_counterexample :
    (generateTargetPath 0 ⟨0⟩ ("CAM".data) ("/a/b.jpg".data) ("dst".data)
        ("{time}".data)).baseFilename
    ≠ (generateTargetPath (-60) ⟨0⟩ ("CAM".data) ("/a/b.jpg".data)
        ("dst".data) ("{time}".data)).baseFilename := by decide

/-- C1 (amended): `targetDirectory` is always `destinationRoot` joined with
the ISO-8601 UTC date of the timestamp and is environment-independent, and
the `{date}` substitution string is the UTC ISO date with no
local-time-zone conversion; the `{time}` substitution string, however, is
produced by local-time conversion (`toTimeString`) and therefore depends on
the environment's time-zone offset. -/
theorem c1_amended (off off' : Int) (date : JSDate)
    (cam path root tpl : Str) :
    (generateTargetPath off date cam path root tpl).targetDir
        = joinP root (isoDateStr date)
    ∧ (generateTargetPath off date cam path root tpl).targetDir
        = (generateTargetPath off' date cam path root tpl).targetDir
    ∧ (generateTargetPath off date cam path root ("{date}".data)).baseFilename
        = isoDateStr date ++ extnameL path
    ∧ (generateTargetPath off date cam path root ("{time}".data)).baseFilename
        = replaceAllChar ':' '-' (timeHMS off date) ++ extnameL path := by
  refine ⟨rfl, rfl, ?_, ?_⟩
  · rw [generateTargetPath_baseFilename]
    have h1 : replaceFirst ("{date}".data) (isoDateStr date) ("{date}".data)
        = isoDateStr date := by
      have h := replaceFirst_append_self ("{date}".data) (isoDateStr date) []
      simpa using h
    rw [h1,
      replaceFirst_of_containsSub_false _ _ _
        (containsSub_false_of_head_lbrace _ (by decide) _
          (lbrace_notMem_isoDateStr date)),
      replaceFirst_of_containsSub_false _ _ _
        (containsSub_false_of_head_lbrace _ (by decide) _
          (lbrace_notMem_isoDateStr date))]
  · rw [generateTargetPath_baseFilename]
    have h0 : replaceFirst ("{date}".data) (isoDateStr date) ("{time}".data)
        = ("{time}".data) :=
      replaceFirst_of_containsSub_false _ _ _ (by decide)
    have h1 : replaceFirst ("{time}".data)
        (replaceAllChar ':' '-' (timeHMS off date)) ("{time}".data)
        = replaceAllChar ':' '-' (timeHMS off date) := by
      have h := replaceFirst_append_self ("{time}".data)
        (replaceAllChar ':' '-' (timeHMS off date)) []
      simpa using h
    rw [h0, h1,
      replaceFirst_of_containsSub_false _ _ _
        (containsSub_false_of_head_lbrace _ (by decide) _
          (lbrace_notMem_hyphenTime off date))]

/-- C2: the claim that every occurrence of a repeated placeholder is
substituted is false: with the template `{date}_{date}` only the first
occurrence is replaced and the second survives literally in the produced
base filename. -/
theorem c2_counterexample :
    (generateTargetPath 0 ⟨0⟩ ("CAM".data) ("/a/b.jpg".data) ("dst".data)
        ("{date}_{date}".data)).baseFilename
      = "1970-01-01_{date}.jpg".data
    ∧ (generateTargetPath 0 ⟨0⟩ ("CAM".data) ("/a/b.jpg".data) ("dst".data)
        ("{date}_{date}".data)).baseFilename
      ≠ "1970-01-01_1970-01-01.jpg".data := by decide


/-! ### Collision resolver (`findAvailableFilename`, src/fileProcessor.js:127-147) -/

/-- The candidate filename built by the collision loop for counter `k`:
the counter is spliced between the stem and the last extension segment
(JavaScript template literal in src/fileProcessor.js:138). -/
def collisionName (nm ext : Str) (k : Nat) : Str :=
  nm ++ '_' :: natToDigits k ++ ext

/-- The `while (true)` probe loop of `findAvailableFilename`.  `ex` is the
filesystem existence oracle (`fs.access` succeeding; `false` models the
`ENOENT` branch that returns the filename).  The source loop is unbounded;
here it is indexed by explicit fuel, one unit per probe, so any fuel
exceeding the number of existing collisions is enough. -/
def findAvailLoop (ex : Str → Bool) (targetDir nm ext : Str) :
    Nat → Nat → Str → Option Str
  | 0, _, _ => none
  | fuel + 1, counter, filename =>
    if ex (joinP targetDir filename) then
      findAvailLoop ex targetDir nm ext fuel (counter + 1)
        (collisionName nm ext counter)
    else some filename

/-- `findAvailableFilename` (src/fileProcessor.js:127-147): split the
desired filename into stem and last extension segment, then probe the
desired name first and `stem_1.ext`, `stem_2.ext`, … until one is free. -/
def findAvailableFilename (ex : Str → Bool) (targetDir baseFilename : Str)
    (fuel : Nat) : Option Str :=
  let ext := extnameL baseFilename
  let nameWithoutExt := basenameDropExt baseFilename ext
  findAvailLoop ex targetDir nameWithoutExt ext fuel 1 baseFilename

/-- The per-file collision dispatch of `processFileGroup`
(src/fileProcessor.js:250-255): policy `replace` short-circuits to the
desired filename, anything else goes through `findAvailableFilename`. -/
def resolveFinalFilename (ex : Str → Bool) (onCollision : Str)
    (targetDir groupFilename : Str) (fuel : Nat) : Option Str :=
  if onCollision = "replace".data then some groupFilename
  else findAvailableFilename ex targetDir groupFilename fuel

theorem findAvailLoop_from (ex : Str → Bool) (dir nm ext : Str) (m : Nat) :
    ∀ fuel c, c ≤ m →
      (∀ k, c ≤ k → k < m → ex (joinP dir (collisionName nm ext k)) = true) →
      ex (joinP dir (collisionName nm ext m)) = false →
      m - c + 1 ≤ fuel →
      findAvailLoop ex dir nm ext fuel (c + 1) (collisionName nm ext c)
        = some (collisionName nm ext m) := by
  intro fuel
  induction fuel with
  | zero => intro c _ _ _ hf; omega
  | succ f ih =>
    intro c hcm hall hm hf
    rw [findAvailLoop]
    by_cases hc : c = m
    · subst hc
      simp [hm]
    · have hlt : c < m := lt_of_le_of_ne hcm hc
      have hcur : ex (joinP dir (collisionName nm ext c)) = true :=
        hall c le_rfl hlt
      have hnext := ih (c + 1) (by omega)
        (fun k hk1 hk2 => hall k (by omega) hk2) hm (by omega)
      simp only [hcur, if_true]
      simpa using hnext

/-- C3: under collision policy `rename`, with `name.ext` taken and
`name_1.ext`, …, `name_(N-1).ext` taken while `name_N.ext` is free, the
resolver probes the desired filename first and then increments the counter
(spliced before the last extension segment) until the first free name,
returning `name_N.ext`; any fuel beyond the `N` collisions suffices, so no
fixed upper bound is involved.  Under policy `replace` the desired
filename is returned unchanged. -/
theorem c3_collision_resolver (ex : Str → Bool) (dir base : Str)
    (N fuel : Nat) :
    resolveFinalFilename ex ("replace".data) dir base fuel = some base
    ∧ (1 ≤ fuel → ex (joinP dir base) = false →
        findAvailableFilename ex dir base fuel = some base)
    ∧ (1 ≤ N → N + 1 ≤ fuel →
        ex (joinP dir base) = true →
        (∀ k, 1 ≤ k → k < N →
          ex (joinP dir (collisionName (basenameDropExt base (extnameL base))
            (extnameL base) k)) = true) →
        ex (joinP dir (collisionName (basenameDropExt base (extnameL base))
          (extnameL base) N)) = false →
        findAvailableFilename ex dir base fuel
          = some (collisionName (basenameDropExt base (extnameL base))
              (extnameL base) N)) := by
  refine ⟨by simp [resolveFinalFilename], ?_, ?_⟩
  · intro hf hex
    obtain ⟨f, rfl⟩ : ∃ f, fuel = f + 1 := ⟨fuel - 1, by omega⟩
    unfold findAvailableFilename
    rw [findAvailLoop]
    simp [hex]
  · intro hN hfuel hex hall hm
    obtain ⟨f, rfl⟩ : ∃ f, fuel = f + 1 := ⟨fuel - 1, by omega⟩
    unfold findAvailableFilename
    rw [findAvailLoop]
    simp only [hex, if_true]
    have h := findAvailLoop_from ex dir
      (basenameDropExt base (extnameL base)) (extnameL base) N f 1
      hN (fun k hk1 hk2 => hall k hk1 hk2) hm (by omega)
    simpa using h

/-- The existence oracle for the C3 witness: a directory holding exactly
`name.ext` and `name_1.ext`. -/
def c3Oracle : Str → Bool :=
  fun s => (["d/name.ext".data, "d/name_1.ext".data] : List Str).contains s

theorem c3_collision_resolver_witness :
    (1 ≤ (2 : Nat) ∧ (2 : Nat) + 1 ≤ 3
      ∧ c3Oracle (joinP ("d".data) ("name.ext".data)) = true
      ∧ c3Oracle (joinP ("d".data) ("name_1.ext".data)) = true
      ∧ c3Oracle (joinP ("d".data) ("name_2.ext".data)) = false)
    ∧ findAvailableFilename c3Oracle ("d".data) ("name.ext".data) 3
        = some ("name_2.ext".data) := by
  refine ⟨by decide, ?_⟩
  have h := (c3_collision_resolver c3Oracle ("d".data) ("name.ext".data)
      2 3).2.2 (by decide) (by decide) (by decide)
      (by
        intro k hk1 hk2
        have hk : k = 1 := by omega
        subst hk
        decide)
      (by decide)
  have h2 : collisionName
      (basenameDropExt ("name.ext".data) (extnameL ("name.ext".data)))
      (extnameL ("name.ext".data)) 2 = "name_2.ext".data := by decide
  rw [h2] at h
  exact h

/-! ### Transfer executor (`processFile`, src/fileProcessor.js:149-172) -/

/-- A Node filesystem error, identified by its `code` property
(`'EXDEV'`, `'ENOENT'`, `'EPERM'`, …). -/
structure JsError where
  code : Str
deriving DecidableEq, Repr

/-- The filesystem primitives `processFile` can invoke, for recording the
order of calls. -/
inductive FsOp
  | mkdirOp
  | renameOp
  | copyOp
  | unlinkOp
deriving DecidableEq, Repr

/-- Outcomes of the filesystem primitives for one `processFile` call:
`none` means the call succeeds, `some e` that it rejects with `e`. -/
structure TransferFs where
  mkdirRes : Option JsError
  renameRes : Option JsError
  copyRes : Option JsError
  unlinkRes : Option JsError

/-- `processFile` (src/fileProcessor.js:149-172), returning its result and
the ordered trace of filesystem primitives it invoked: `mkdir` the target
directory; in copy mode `copyFile`; in move mode `rename`, and on a
rejection carrying code `'EXDEV'` — and only then — `copyFile` followed by
`unlink`, while any other rename rejection is rethrown unchanged. -/
def processFile (fsOps : TransferFs) (_sourcePath targetDir filename : Str)
    (copyFiles : Bool) : Except JsError Str × List FsOp :=
  match fsOps.mkdirRes with
  | some e => (.error e, [.mkdirOp])
  | none =>
    let targetPath := joinP targetDir filename
    if copyFiles then
      match fsOps.copyRes with
      | some e => (.error e, [.mkdirOp, .copyOp])
      | none => (.ok targetPath, [.mkdirOp, .copyOp])
    else
      match fsOps.renameRes with
      | none => (.ok targetPath, [.mkdirOp, .renameOp])
      | some e =>
        if e.code = "EXDEV".data then
          match fsOps.copyRes with
          | some e2 => (.error e2, [.mkdirOp, .renameOp, .copyOp])
          | none =>
            match fsOps.unlinkRes with
            | some e2 =>
                (.error e2, [.mkdirOp, .renameOp, .copyOp, .unlinkOp])
            | none =>
                (.ok targetPath, [.mkdirOp, .renameOp, .copyOp, .unlinkOp])
        else (.error e, [.mkdirOp, .renameOp])

/-- C4: in move mode (with the target directory creatable), the executor
always attempts the rename first; the copy-then-delete fallback runs
exactly when the rename rejects with the cross-device code `'EXDEV'`; any
other rename error propagates unchanged and triggers no copy and no
unlink; a successful rename completes the move with no fallback. -/
theorem c4_move_fallback (fsOps : TransferFs) (src dir fn : Str)
    (hmk : fsOps.mkdirRes = none) :
    (∀ e, fsOps.renameRes = some e → e.code ≠ "EXDEV".data →
        (processFile fsOps src dir fn false).1 = .error e
        ∧ FsOp.copyOp ∉ (processFile fsOps src dir fn false).2
        ∧ FsOp.unlinkOp ∉ (processFile fsOps src dir fn false).2)
    ∧ (FsOp.copyOp ∈ (processFile fsOps src dir fn false).2
        ↔ ∃ e, fsOps.renameRes = some e ∧ e.code = "EXDEV".data)
    ∧ (processFile fsOps src dir fn false).2.take 2
        = [FsOp.mkdirOp, FsOp.renameOp]
    ∧ (fsOps.renameRes = none →
        (processFile fsOps src dir fn false).1 = .ok (joinP dir fn)) := by
  rcases hr : fsOps.renameRes with _ | e
  · simp [processFile, hmk, hr]
  · by_cases hc : e.code = "EXDEV".data
    · rcases hcp : fsOps.copyRes with _ | e2
      · rcases hu : fsOps.unlinkRes with _ | e3
        · simp [processFile, hmk, hr, hc, hcp, hu]
        · simp [processFile, hmk, hr, hc, hcp, hu]
      · simp [processFile, hmk, hr, hc, hcp]
    · simp [processFile, hmk, hr, hc]

/-- Primitive outcomes for the C4 witness: rename rejects with `'EPERM'`,
everything else would succeed. -/
def c4Fs : TransferFs := ⟨none, some ⟨"EPERM".data⟩, none, none⟩

theorem c4_move_fallback_witness :
    (c4Fs.mkdirRes = none ∧ c4Fs.renameRes = some ⟨"EPERM".data⟩
      ∧ ("EPERM".data : Str) ≠ "EXDEV".data)
    ∧ (processFile c4Fs ("s".data) ("d".data) ("f.mp4".data) false).1
        = .error ⟨"EPERM".data⟩
    ∧ FsOp.copyOp ∉ (processFile c4Fs ("s".data) ("d".data)
        ("f.mp4".data) false).2
    ∧ FsOp.unlinkOp ∉ (processFile c4Fs ("s".data) ("d".data)
        ("f.mp4".data) false).2 := by
  refine ⟨by refine ⟨rfl, rfl, by decide⟩, ?_⟩
  have h := (c4_move_fallback c4Fs ("s".data) ("d".data) ("f.mp4".data)
      rfl).1 ⟨"EPERM".data⟩ rfl (by intro hcontra; cases hcontra)
  exact ⟨h.1, h.2.1, h.2.2⟩

/-! ### Date resolver (`extractFileDate`, src/fileProcessor.js:53-109) -/

/-- The fields of interest in an `exifr.parse` result
(`DateTimeOriginal`, `DateTime`); `exifr` yields already-parsed `Date`
values, and `new Date(existingDate)` clones it. -/
structure ExifData where
  dateTimeOriginal : Option JSDate
  dateTime : Option JSDate

/-- The host-side inputs of one `extractFileDate` call.
`exifr = none` models `exifr.parse` throwing (the catch block falls
through); `exiftool = some out` models the subprocess exiting 0 with
non-empty trimmed stdout `out`, `none` any spawn failure, non-zero exit or
empty output; `jsParse` is the JavaScript `Date` string parser (`none`
models an invalid date, `isNaN(date.getTime())`); `statRes` is `fs.stat`,
which the source calls outside any try/catch, yielding the file's
`mtime`. -/
structure DateEnv where
  exifr : Option ExifData
  exiftool : Option Str
  jsParse : Str → Option JSDate
  statRes : Except JsError JSDate

/-- `true` iff the next ten characters are `dddd:dd:dd` — the pattern of
the regex `/(\d{4}):(\d{2}):(\d{2})/` anchored at this position. -/
def dateColonPat (s : Str) : Bool :=
  match s with
  | a :: b :: c :: d :: e :: f :: g :: h :: i :: j :: _ =>
      a.isDigit && b.isDigit && c.isDigit && d.isDigit && (e = ':')
        && f.isDigit && g.isDigit && (h = ':') && i.isDigit && j.isDigit
  | _ => false

/-- `result.replace(/(\d{4}):(\d{2}):(\d{2})/, '$1-$2-$3')`
(src/fileProcessor.js:96): rewrite the first `dddd:dd:dd` match, turning
its two colons into hyphens; everything else is untouched. -/
def colonFix : Str → Str
  | [] => []
  | c :: cs =>
      if dateColonPat (c :: cs) then
        (c :: cs).take 4 ++ '-' :: ((c :: cs).drop 5).take 2
          ++ '-' :: (c :: cs).drop 8
      else c :: colonFix cs

/-- Stages 1 and 2 of `extractFileDate`: the `exifr.parse` attempt
(src/fileProcessor.js:55-65).  A parse failure or absent fields yield
`none` and control falls through. -/
def exifStage (env : DateEnv) : Option JSDate :=
  match env.exifr with
  | none => none
  | some data =>
    match data.dateTimeOriginal with
    | some v => some v
    | none =>
      match data.dateTime with
      | some v => some v
      | none => none

/-- Stage 3 of `extractFileDate`: the exiftool subprocess attempt
(src/fileProcessor.js:67-104).  On success the colon-delimited date is
rewritten and parsed; an invalid parse (`isNaN`) falls through. -/
def exiftoolStage (env : DateEnv) : Option JSDate :=
  match env.exiftool with
  | none => none
  | some out =>
    match env.jsParse (colonFix out) with
    | some d => some d
    | none => none

/-- `extractFileDate` (src/fileProcessor.js:53-109): with `useExifDate`,
try `exifr` fields then exiftool, and fall back to `fs.stat().mtime`,
which is the only call whose rejection escapes; without `useExifDate`, go
straight to `fs.stat().mtime`. -/
def extractFileDate (env : DateEnv) (useExifDate : Bool) :
    Except JsError JSDate :=
  if useExifDate then
    match exifStage env with
    | some d => .ok d
    | none =>
      match exiftoolStage env with
      | some d => .ok d
      | none => env.statRes
  else env.statRes

/-- The first `some` in a list of optional stage results. -/
def firstSome : List (Option JSDate) → Option JSDate
  | [] => none
  | some d :: _ => some d
  | none :: rest => firstSome rest

/-- Modelled from the spec (§4.3, refinement comparand): the ordered
fallback chain — embedded primary field, embedded secondary field,
external tool, filesystem mtime — tried strictly in that order, first
success wins, and mtime immediately when `useEmbeddedDate` is false. -/
def resolveDateSpec (env : DateEnv) (useEmbeddedDate : Bool) :
    Except JsError JSDate :=
  if useEmbeddedDate then
    match firstSome
      [(env.exifr.bind fun d => d.dateTimeOriginal),
       (env.exifr.bind fun d => d.dateTime),
       exiftoolStage env] with
    | some d => .ok d
    | none => env.statRes
  else env.statRes

/-- C6: the code's date resolver coincides with the spec's ordered
fallback chain: embedded primary field, embedded secondary field, external
tool, filesystem modification time, first success wins, no value ever
merged across sources; and with `useExifDate = false` it is the
modification time immediately. -/
theorem c6_date_resolver_order (env : DateEnv) (u : Bool) :
    extractFileDate env u = resolveDateSpec env u
    ∧ extractFileDate env false = env.statRes := by
  constructor
  · cases u with
    | false => rfl
    | true =>
      unfold extractFileDate resolveDateSpec exifStage
      rcases env.exifr with _ | data
      · simp [firstSome, Option.bind]
        rcases hE : exiftoolStage env with _ | d <;>
          simp [firstSome, hE]
      · rcases h1 : data.dateTimeOriginal with _ | v
        · rcases h2 : data.dateTime with _ | w
          · simp [firstSome, Option.bind, h1, h2]
            rcases hE : exiftoolStage env with _ | d <;>
              simp [firstSome, hE]
          · simp [firstSome, Option.bind, h1, h2]
        · simp [firstSome, Option.bind, h1]
  · rfl

/-- C5 inputs for the counterexample: every metadata stage fails and the
final `fs.stat` rejects with `'EACCES'`. -/
def c5FailEnv : DateEnv := ⟨none, none, fun _ => none, .error ⟨"EACCES".data⟩⟩

/-- C5: the claim that the date resolver never raises is false: the final
`fs.stat` call (src/fileProcessor.js:107) is outside every try/catch, so
when all metadata stages fail and the stat itself rejects — e.g. the file
was deleted or became unreadable between scan and processing — the
rejection escapes to the caller instead of a timestamp being returned. -/
theorem c5_counterexample :
    extractFileDate c5FailEnv true = .error ⟨"EACCES".data⟩
    ∧ extractFileDate c5FailEnv false = .error ⟨"EACCES".data⟩ :=
  ⟨rfl, rfl⟩

/-- C5 (amended): provided the final filesystem stat succeeds, the date
resolver never surfaces an error and always returns a timestamp, for every
combination of stage-1-to-3 outcomes and both values of `useExifDate`:
any parse error, missing field, tool failure or non-zero exit at stages
1–3 silently falls through, with the modification time as last resort. -/
theorem c5_no_raise_when_stat_ok (env : DateEnv) (u : Bool) (d : JSDate)
    (hstat : env.statRes = .ok d) :
    ∃ d', extractFileDate env u = .ok d' := by
  cases u with
  | false => exact ⟨d, hstat⟩
  | true =>
    unfold extractFileDate
    rcases hS : exifStage env with _ | v
    · rcases hE : exiftoolStage env with _ | w
      · exact ⟨d, by simp [hS, hE, hstat]⟩
      · exact ⟨w, by simp [hS, hE]⟩
    · exact ⟨v, by simp [hS]⟩

/-- C5 witness inputs: all metadata stages fail, the stat succeeds. -/
def c5OkEnv : DateEnv := ⟨none, none, fun _ => none, .ok ⟨42⟩⟩

theorem c5_no_raise_when_stat_ok_witness :
    c5OkEnv.statRes = .ok ⟨42⟩
    ∧ ∃ d', extractFileDate c5OkEnv true = .ok d' :=
  ⟨rfl, c5_no_raise_when_stat_ok c5OkEnv true ⟨42⟩ rfl⟩

/-! ### Relationship grouper (`groupRelatedFiles`, src/fileProcessor.js:174-234) -/

/-- A file group (src/fileProcessor.js:46-50 and 205-230). -/
structure FileGroup where
  files : List Str
  primaryFile : Str
  companionFiles : List Str
deriving DecidableEq, Repr

/-- JavaScript `Map` accumulation used by `groupRelatedFiles`
(src/fileProcessor.js:185-188): push `f` onto the entry for key `k`,
creating the entry at the end on first insertion (a JS `Map` preserves
insertion order). -/
def insertGrouped (m : List (Str × List Str)) (k : Str) (f : Str) :
    List (Str × List Str) :=
  match m with
  | [] => [(k, [f])]
  | (k', vs) :: rest =>
      if k' = k then (k', vs ++ [f]) :: rest
      else (k', vs) :: insertGrouped rest k f

/-- The grouping key of a file (src/fileProcessor.js:179-183): containing
directory joined with the basename minus its extension. -/
def groupKey (file : Str) : Str :=
  let filename := basenameL file
  let ext := toLowerL (extnameL filename)
  joinP (dirnameL file) (filename.take (filename.length - ext.length))

/-- The insertion-ordered key groups built by the first loop of
`groupRelatedFiles` (src/fileProcessor.js:175-189). -/
def buildGroups (files : List Str) : List (Str × List Str) :=
  files.foldl (fun m file => insertGrouped m (groupKey file) file) []

/-- `groupFiles.filter(file => exts.includes(extname(file).toLowerCase()))`
(src/fileProcessor.js:195-203). -/
def classifyFilter (exts : List Str) (groupFiles : List Str) : List Str :=
  groupFiles.filter (fun f => decide (toLowerL (extnameL f) ∈ exts))

/-- The per-key emission of `groupRelatedFiles`
(src/fileProcessor.js:205-230): no primary — each companion becomes its
own singleton group; one primary — one group with all companions;
several primaries — one group per primary, each carrying all companions. -/
def emitGroups (pE cE : List Str) (entry : Str × List Str) :
    List FileGroup :=
  match classifyFilter pE entry.2 with
  | [] => (classifyFilter cE entry.2).map (fun c => ⟨[c], c, []⟩)
  | [p] => [⟨p :: classifyFilter cE entry.2, p, classifyFilter cE entry.2⟩]
  | p :: q :: rest =>
      (p :: q :: rest).map
        (fun x => ⟨x :: classifyFilter cE entry.2, x,
          classifyFilter cE entry.2⟩)

/-- `groupRelatedFiles` (src/fileProcessor.js:174-234). -/
def groupRelatedFiles (files pE cE : List Str) : List FileGroup :=
  (buildGroups files).flatMap (emitGroups pE cE)

open List in
theorem vals_insertGrouped (m : List (Str × List Str)) (k : Str) (f : Str) :
    (insertGrouped m k f).flatMap (fun e => e.2)
      ~ m.flatMap (fun e => e.2) ++ [f] := by
  induction m with
  | nil => simp [insertGrouped]
  | cons hd rest ih =>
    rcases hd with ⟨k', vs⟩
    by_cases hk : k' = k
    · simp only [insertGrouped, if_pos hk, List.flatMap_cons]
      calc (vs ++ [f]) ++ rest.flatMap (fun e => e.2)
          ~ vs ++ ([f] ++ rest.flatMap (fun e => e.2)) := by
            rw [List.append_assoc]
        _ ~ vs ++ (rest.flatMap (fun e => e.2) ++ [f]) :=
            List.Perm.append_left vs (List.perm_append_comm)
        _ ~ (vs ++ rest.flatMap (fun e => e.2)) ++ [f] := by
            rw [List.append_assoc]
    · simp only [insertGrouped, if_neg hk, List.flatMap_cons]
      calc vs ++ (insertGrouped rest k f).flatMap (fun e => e.2)
          ~ vs ++ (rest.flatMap (fun e => e.2) ++ [f]) :=
            List.Perm.append_left vs ih
        _ ~ (vs ++ rest.flatMap (fun e => e.2)) ++ [f] := by
            rw [List.append_assoc]

open List in
theorem vals_buildGroups_aux (files : List Str) :
    ∀ m : List (Str × List Str),
      ((files.foldl (fun m file => insertGrouped m (groupKey file) file)
          m).flatMap (fun e => e.2))
        ~ m.flatMap (fun e => e.2) ++ files := by
  induction files with
  | nil => intro m; simp
  | cons f fs ih =>
    intro m
    have h1 := ih (insertGrouped m (groupKey f) f)
    have h2 : (insertGrouped m (groupKey f) f).flatMap (fun e => e.2) ++ fs
        ~ (m.flatMap (fun e => e.2) ++ [f]) ++ fs :=
      List.Perm.append_right fs (vals_insertGrouped m (groupKey f) f)
    calc ((f :: fs).foldl
            (fun m file => insertGrouped m (groupKey file) file) m).flatMap
            (fun e => e.2)
        ~ (insertGrouped m (groupKey f) f).flatMap (fun e => e.2) ++ fs :=
          h1
      _ ~ (m.flatMap (fun e => e.2) ++ [f]) ++ fs := h2
      _ ~ m.flatMap (fun e => e.2) ++ (f :: fs) := by
          rw [List.append_assoc]
          simp

open List in
theorem vals_buildGroups (files : List Str) :
    (buildGroups files).flatMap (fun e => e.2) ~ files := by
  have h := vals_buildGroups_aux files []
  simpa [buildGroups] using h

open List in
theorem vals_buildGroups_nodup (files : List Str) (h : files.Nodup) :
    ((buildGroups files).flatMap (fun e => e.2)).Nodup :=
  ((vals_buildGroups files).nodup_iff).mpr h

theorem classifyFilter_subset (exts l : List Str) :
    ∀ x ∈ classifyFilter exts l, x ∈ l :=
  fun _ hx => List.mem_of_mem_filter hx

theorem emit_zero (pE cE : List Str) (e : Str × List Str)
    (h : classifyFilter pE e.2 = []) :
    emitGroups pE cE e
      = (classifyFilter cE e.2).map (fun c => ⟨[c], c, []⟩) := by
  unfold emitGroups
  rw [h]

theorem emit_one (pE cE : List Str) (e : Str × List Str) (p : Str)
    (h : classifyFilter pE e.2 = [p]) :
    emitGroups pE cE e
      = [⟨p :: classifyFilter cE e.2, p, classifyFilter cE e.2⟩] := by
  unfold emitGroups
  rw [h]

theorem emit_multi (pE cE : List Str) (e : Str × List Str)
    (p q : Str) (rest : List Str)
    (h : classifyFilter pE e.2 = p :: q :: rest) :
    emitGroups pE cE e
      = (p :: q :: rest).map
          (fun x => ⟨x :: classifyFilter cE e.2, x,
            classifyFilter cE e.2⟩) := by
  unfold emitGroups
  rw [h]

theorem emit_primary_mem (pE cE : List Str) (e : Str × List Str) :
    ∀ g ∈ emitGroups pE cE e, g.primaryFile ∈ e.2 := by
  intro g hg
  rcases hP : classifyFilter pE e.2 with _ | ⟨p, _ | ⟨q, rest⟩⟩
  · rw [emit_zero pE cE e hP] at hg
    rcases List.mem_map.mp hg with ⟨c, hc, rfl⟩
    exact classifyFilter_subset cE e.2 c hc
  · rw [emit_one pE cE e p hP] at hg
    simp only [List.mem_singleton] at hg
    subst hg
    exact classifyFilter_subset pE e.2 p
      (by rw [hP]; exact List.mem_singleton_self p)
  · rw [emit_multi pE cE e p q rest hP] at hg
    rcases List.mem_map.mp hg with ⟨x, hx, rfl⟩
    exact classifyFilter_subset pE e.2 x (by rw [hP]; exact hx)

theorem emit_side_filter (pE cE : List Str) (S : List Str)
    (l : List (Str × List Str))
    (hdisj : ∀ x ∈ l.flatMap (fun e => e.2), x ∉ S) :
    (l.flatMap (emitGroups pE cE)).filter
        (fun g => decide (g.primaryFile ∈ S)) = [] := by
  apply List.filter_eq_nil_iff.mpr
  intro g hg
  rcases List.mem_flatMap.mp hg with ⟨e, he, hge⟩
  have h1 : g.primaryFile ∈ e.2 := emit_primary_mem pE cE e g hge
  have h2 : g.primaryFile ∈ l.flatMap (fun e => e.2) :=
    List.mem_flatMap.mpr ⟨e, he, h1⟩
  simpa using hdisj _ h2

/-- C7: in a key-group holding two or more primary-classified files the
grouper emits, in order, exactly one group per primary file — no more, no
fewer (the emitted groups whose primary lies in this key-group's primary
list are exactly that list, mapped) — and every companion-classified file
of the key-group appears in the `companionFiles` of every such group,
undeduplicated and unpartitioned. -/
theorem c7_multi_primary_fanout (files pE cE : List Str) (k : Str)
    (gf : List Str) (hnd : files.Nodup)
    (hmem : (k, gf) ∈ buildGroups files)
    (h2 : 2 ≤ (classifyFilter pE gf).length) :
    (groupRelatedFiles files pE cE).filter
        (fun g => decide (g.primaryFile ∈ classifyFilter pE gf))
      = (classifyFilter pE gf).map
          (fun p => ⟨p :: classifyFilter cE gf, p,
            classifyFilter cE gf⟩) := by
  obtain ⟨l₁, l₂, hsplit⟩ := List.append_of_mem hmem
  have hvals := vals_buildGroups_nodup files hnd
  rw [hsplit, List.flatMap_append, List.flatMap_cons] at hvals
  obtain ⟨_, hnd23, hdisj1⟩ := List.nodup_append.mp hvals
  obtain ⟨_, _, hdisj2⟩ := List.nodup_append.mp hnd23
  have hside1 : ∀ x ∈ l₁.flatMap (fun e => e.2),
      x ∉ classifyFilter pE gf := by
    intro x hx hxS
    exact hdisj1 hx
      (List.mem_append_left _ (classifyFilter_subset pE gf x hxS))
  have hside2 : ∀ x ∈ l₂.flatMap (fun e => e.2),
      x ∉ classifyFilter pE gf := by
    intro x hx hxS
    exact hdisj2 (classifyFilter_subset pE gf x hxS) hx
  unfold groupRelatedFiles
  rw [hsplit, List.flatMap_append, List.flatMap_cons,
    List.filter_append, List.filter_append,
    emit_side_filter pE cE _ l₁ hside1,
    emit_side_filter pE cE _ l₂ hside2]
  rcases hP : classifyFilter pE gf with _ | ⟨p, _ | ⟨q, rest⟩⟩
  · rw [hP] at h2; simp at h2
  · rw [hP] at h2; simp at h2
  · rw [emit_multi pE cE (k, gf) p q rest
      (show classifyFilter pE (k, gf).2 = p :: q :: rest from hP)]
    have hfull :
        ((p :: q :: rest).map
            (fun x => (⟨x :: classifyFilter cE (k, gf).2, x,
              classifyFilter cE (k, gf).2⟩ : FileGroup))).filter
          (fun g => decide (g.primaryFile ∈ p :: q :: rest))
        = (p :: q :: rest).map
            (fun x => ⟨x :: classifyFilter cE (k, gf).2, x,
              classifyFilter cE (k, gf).2⟩) := by
      apply List.filter_eq_self.mpr
      intro g hg
      rcases List.mem_map.mp hg with ⟨x, hx, rfl⟩
      simp only [decide_eq_true_eq]
      exact hx
    rw [hfull]
    simp

/-- C8: in a key-group with no primary-classified file, the grouper turns
each companion-classified file into its own singleton group — itself as
primary, no companions — in order and exactly once, so companions whose
expected partner is missing are never dropped. -/
theorem c8_companion_singletons (files pE cE : List Str) (k : Str)
    (gf : List Str) (hnd : files.Nodup)
    (hmem : (k, gf) ∈ buildGroups files)
    (h0 : classifyFilter pE gf = []) :
    (groupRelatedFiles files pE cE).filter
        (fun g => decide (g.primaryFile ∈ classifyFilter cE gf))
      = (classifyFilter cE gf).map (fun c => ⟨[c], c, []⟩) := by
  obtain ⟨l₁, l₂, hsplit⟩ := List.append_of_mem hmem
  have hvals := vals_buildGroups_nodup files hnd
  rw [hsplit, List.flatMap_append, List.flatMap_cons] at hvals
  obtain ⟨_, hnd23, hdisj1⟩ := List.nodup_append.mp hvals
  obtain ⟨_, _, hdisj2⟩ := List.nodup_append.mp hnd23
  have hside1 : ∀ x ∈ l₁.flatMap (fun e => e.2),
      x ∉ classifyFilter cE gf := by
    intro x hx hxS
    exact hdisj1 hx
      (List.mem_append_left _ (classifyFilter_subset cE gf x hxS))
  have hside2 : ∀ x ∈ l₂.flatMap (fun e => e.2),
      x ∉ classifyFilter cE gf := by
    intro x hx hxS
    exact hdisj2 (classifyFilter_subset cE gf x hxS) hx
  unfold groupRelatedFiles
  rw [hsplit, List.flatMap_append, List.flatMap_cons,
    List.filter_append, List.filter_append,
    emit_side_filter pE cE _ l₁ hside1,
    emit_side_filter pE cE _ l₂ hside2,
    emit_zero pE cE (k, gf)
      (show classifyFilter pE (k, gf).2 = [] from h0)]
  have hfull :
      ((classifyFilter cE (k, gf).2).map
          (fun c => (⟨[c], c, []⟩ : FileGroup))).filter
        (fun g => decide (g.primaryFile ∈ classifyFilter cE gf))
      = (classifyFilter cE (k, gf).2).map
          (fun c => ⟨[c], c, []⟩) := by
    apply List.filter_eq_self.mpr
    intro g hg
    rcases List.mem_map.mp hg with ⟨c, hc, rfl⟩
    simp only [decide_eq_true_eq]
    exact hc
  rw [hfull]
  simp

/-- Primary extensions for the grouper witnesses. -/
def demoPrimaryExts : List Str := [".mp4".data, ".mov".data]

/-- Companion extensions for the grouper witnesses. -/
def demoCompanionExts : List Str := [".srt".data]

/-- The spec's fan-out example: two primaries and one companion sharing
the basename `C`. -/
def demoFanFiles : List Str :=
  ["/s/C.MP4".data, "/s/C.MOV".data, "/s/C.SRT".data]

/-- The spec's orphan-companion example: a lone `B.SRT`. -/
def demoSoloFiles : List Str := ["/s/B.SRT".data]

theorem c7_multi_primary_fanout_witness :
    (demoFanFiles.Nodup
      ∧ (("/s/C".data, demoFanFiles) ∈ buildGroups demoFanFiles)
      ∧ 2 ≤ (classifyFilter demoPrimaryExts demoFanFiles).length)
    ∧ (groupRelatedFiles demoFanFiles demoPrimaryExts
          demoCompanionExts).filter
        (fun g => decide
          (g.primaryFile ∈ classifyFilter demoPrimaryExts demoFanFiles))
      = (classifyFilter demoPrimaryExts demoFanFiles).map
          (fun p => ⟨p :: classifyFilter demoCompanionExts demoFanFiles,
            p, classifyFilter demoCompanionExts demoFanFiles⟩) :=
  ⟨⟨by decide, by decide, by decide⟩,
    c7_multi_primary_fanout demoFanFiles demoPrimaryExts demoCompanionExts
      ("/s/C".data) demoFanFiles (by decide) (by decide) (by decide)⟩

theorem c8_companion_singletons_witness :
    (demoSoloFiles.Nodup
      ∧ (("/s/B".data, demoSoloFiles) ∈ buildGroups demoSoloFiles)
      ∧ classifyFilter demoPrimaryExts demoSoloFiles = [])
    ∧ (groupRelatedFiles demoSoloFiles demoPrimaryExts
          demoCompanionExts).filter
        (fun g => decide
          (g.primaryFile ∈ classifyFilter demoCompanionExts demoSoloFiles))
      = (classifyFilter demoCompanionExts demoSoloFiles).map
          (fun c => ⟨[c], c, []⟩) :=
  ⟨⟨by decide, by decide, by decide⟩,
    c8_companion_singletons demoSoloFiles demoPrimaryExts
      demoCompanionExts ("/s/B".data) demoSoloFiles
      (by decide) (by decide) (by decide)⟩

/-! ### Profile validation (`validateProfile`, src/config.js:65-137) and
the scanner (`scanFiles`, src/fileProcessor.js:5-51) -/

/-- A raw profile as loaded from YAML.  `none` models an absent (or
JavaScript-falsy) value, `some v` a present truthy value. -/
structure Profile where
  sourcePath : Option Str := none
  destinationRoot : Option Str := none
  cameraLabel : Option Str := none
  includeExtensions : Option (List Str) := none
  excludeExtensions : Option (List Str) := none
  excludeFolders : Option (List Str) := none
  transferMode : Option Str := none
  copyFiles : Option Bool := none
  useExifDate : Option Bool := none
  onCollision : Option Str := none
  logLevel : Option Str := none
  maintainFileRelationships : Option Bool := none
  primaryExtensions : Option (List Str) := none
  companionExtensions : Option (List Str) := none
  filenameFormat : Option Str := none

/-- The validated, default-filled configuration returned by
`validateProfile` (src/config.js:97-136). -/
structure Config where
  sourcePath : Str
  destinationRoot : Str
  cameraLabel : Str
  includeExtensions : List Str
  excludeExtensions : List Str
  excludeFolders : List Str
  transferMode : Str
  useExifDate : Bool
  onCollision : Str
  logLevel : Str
  maintainFileRelationships : Bool
  primaryExtensions : List Str
  companionExtensions : List Str
  filenameFormat : Str
deriving DecidableEq, Repr

/-- Default `includeExtensions` (src/config.js:101-113). -/
def defaultIncludeExts : List Str :=
  [".jpg".data, ".jpeg".data, ".raw".data, ".cr2".data, ".nef".data,
   ".arw".data, ".dng".data, ".mp4".data, ".mov".data, ".avi".data,
   ".srt".data]

/-- Default `primaryExtensions` (src/config.js:121-133). -/
def defaultPrimaryExts : List Str :=
  [".mp4".data, ".mov".data, ".avi".data, ".jpg".data, ".jpeg".data,
   ".heic".data, ".raw".data, ".cr2".data, ".nef".data, ".arw".data,
   ".dng".data]

/-- Default `companionExtensions` (src/config.js:134). -/
def defaultCompanionExts : List Str :=
  [".srt".data, ".lrf".data, ".xmp".data]

/-- `profile.x && !allowed.includes(profile.x)`: a present value outside
the allowed set. -/
def invalidOpt (allowed : List Str) : Option Str → Bool
  | some v => decide (v ∉ allowed)
  | none => false

/-- `validateProfile` (src/config.js:65-137): reject on missing required
fields or invalid `onCollision`/`transferMode`/`logLevel` values, in the
source's check order (the error strings stand in for the JS `Error`
messages); otherwise resolve defaults, including the `copyFiles` backward
compatibility for `transferMode`.  Notably, `filenameFormat` is only
defaulted — never validated. -/
def validateProfile (p : Profile) : Except Str Config :=
  if p.sourcePath = none ∨ p.destinationRoot = none ∨ p.cameraLabel = none
  then .error ("Missing required fields".data)
  else if invalidOpt ["rename".data, "replace".data] p.onCollision
  then .error ("Invalid onCollision value".data)
  else if invalidOpt ["copy".data, "move".data] p.transferMode
  then .error ("Invalid transferMode value".data)
  else if invalidOpt
      ["debug".data, "info".data, "warn".data, "error".data] p.logLevel
  then .error ("Invalid logLevel value".data)
  else
    .ok
      { sourcePath := p.sourcePath.getD []
        destinationRoot := p.destinationRoot.getD []
        cameraLabel := p.cameraLabel.getD []
        includeExtensions := p.includeExtensions.getD defaultIncludeExts
        excludeExtensions := p.excludeExtensions.getD []
        excludeFolders := p.excludeFolders.getD []
        transferMode :=
          match p.transferMode with
          | some v => v
          | none =>
            match p.copyFiles with
            | some b => if b then "copy".data else "move".data
            | none => "copy".data
        useExifDate := p.useExifDate.getD true
        onCollision := p.onCollision.getD ("rename".data)
        logLevel := p.logLevel.getD ("info".data)
        maintainFileRelationships :=
          p.maintainFileRelationships.getD true
        primaryExtensions := p.primaryExtensions.getD defaultPrimaryExts
        companionExtensions :=
          p.companionExtensions.getD defaultCompanionExts
        filenameFormat :=
          p.filenameFormat.getD ("{date}_{time}_{camera}".data) }

/-- A directory listing of a source tree: a sequence of Node `Dirent`
entries (directories with their own listings, and regular files), written
as one inductive so recursion over it is structural. -/
inductive FsTree where
  | nilE : FsTree
  | dirE (name : Str) (children : FsTree) (rest : FsTree) : FsTree
  | fileE (name : Str) (rest : FsTree) : FsTree

/-- The recursive walk of `scanFiles` (src/fileProcessor.js:8-36):
directories not named in `excludeFolders` are descended into (the sidecar
prefix is never consulted for them); files whose name starts with `._`
are skipped, and otherwise kept iff their lower-cased extension is
included and not excluded.  Every directory read succeeds in this model
(a failed read only skips that subtree and warns). -/
def scanEntries (includeExt excludeExt excludeFolders : List Str) :
    Str → FsTree → List Str
  | _, .nilE => []
  | dir, .dirE name children rest =>
      (if decide (name ∈ excludeFolders) then []
       else scanEntries includeExt excludeExt excludeFolders
         (joinP dir name) children)
        ++ scanEntries includeExt excludeExt excludeFolders dir rest
  | dir, .fileE name rest =>
      (if ("._".data).isPrefixOf name then []
       else if decide (toLowerL (extnameL name) ∈ includeExt)
              && !decide (toLowerL (extnameL name) ∈ excludeExt)
       then [joinP dir name]
       else [])
        ++ scanEntries includeExt excludeExt excludeFolders dir rest

/-- `scanFiles` (src/fileProcessor.js:5-51): walk the tree, then either
group by relationships or wrap each file as its own group. -/
def scanFiles (includeExt excludeExt excludeFolders : List Str)
    (maintain : Bool) (pE cE : List Str) (sourcePath : Str)
    (tree : FsTree) : List FileGroup :=
  let files :=
    scanEntries includeExt excludeExt excludeFolders sourcePath tree
  if maintain then groupRelatedFiles files pE cE
  else files.map (fun f => ⟨[f], f, []⟩)

/-- The validate-then-scan prefix of the import run (src/cli.js:71-77 and
351-358): `validateProfile` runs, and throws, before `runImport` ever
calls `scanFiles`, so a validation error yields no scan at all. -/
def runImportModel (p : Profile) (tree : FsTree) :
    Except Str (List FileGroup) :=
  match validateProfile p with
  | .error e => .error e
  | .ok c =>
      .ok (scanFiles c.includeExtensions c.excludeExtensions
        c.excludeFolders c.maintainFileRelationships c.primaryExtensions
        c.companionExtensions c.sourcePath tree)

/-- The C9 counterexample profile: required fields present, and a
`filenameFormat` that is not a recognized placeholder template. -/
def c9Profile : Profile :=
  { sourcePath := some ("/src".data)
    destinationRoot := some ("/dst".data)
    cameraLabel := some ("CAM".data)
    filenameFormat := some ("{bogus}".data) }

/-- The configuration `validateProfile` returns for `c9Profile`. -/
def c9Expected : Config :=
  { sourcePath := "/src".data
    destinationRoot := "/dst".data
    cameraLabel := "CAM".data
    includeExtensions := defaultIncludeExts
    excludeExtensions := []
    excludeFolders := []
    transferMode := "copy".data
    useExifDate := true
    onCollision := "rename".data
    logLevel := "info".data
    maintainFileRelationships := true
    primaryExtensions := defaultPrimaryExts
    companionExtensions := defaultCompanionExts
    filenameFormat := "{bogus}".data }

/-- C9: the claim that an unrecognized filename-template value is
rejected is false: `validateProfile` never inspects `filenameFormat`, so
a profile whose template is the meaningless `{bogus}` validates
successfully and the import proceeds with it. -/
theorem c9_counterexample :
    validateProfile c9Profile = .ok c9Expected
    ∧ c9Expected.filenameFormat = "{bogus}".data := by
  constructor
  · rfl
  · rfl

/-- C9 (amended): a profile whose `transferMode` or `onCollision` value
is present but unrecognized is rejected by configuration validation, and
the rejection aborts the run before any scanning happens; the filename
template, by contrast, is not validated at all. -/
theorem c9_invalid_config_rejected (p : Profile) (tree : FsTree) :
    (∀ v, p.transferMode = some v →
        v ∉ ["copy".data, "move".data] →
        ∃ e, validateProfile p = .error e
          ∧ runImportModel p tree = .error e)
    ∧ (∀ v, p.onCollision = some v →
        v ∉ ["rename".data, "replace".data] →
        ∃ e, validateProfile p = .error e
          ∧ runImportModel p tree = .error e) := by
  have herr : ∀ e : Str, validateProfile p = .error e →
      runImportModel p tree = .error e := by
    intro e he
    unfold runImportModel
    rw [he]
  constructor
  · intro v hv hval
    by_cases hA : p.sourcePath = none ∨ p.destinationRoot = none
        ∨ p.cameraLabel = none
    · refine ⟨"Missing required fields".data, ?_, ?_⟩
      · unfold validateProfile
        rw [if_pos hA]
      · exact herr _ (by unfold validateProfile; rw [if_pos hA])
    · by_cases hB : invalidOpt ["rename".data, "replace".data]
          p.onCollision
      · refine ⟨"Invalid onCollision value".data, ?_, ?_⟩
        · unfold validateProfile
          rw [if_neg hA, if_pos hB]
        · exact herr _
            (by unfold validateProfile; rw [if_neg hA, if_pos hB])
      · have hC : invalidOpt ["copy".data, "move".data] p.transferMode
            = true := by
          rw [hv]
          simp [invalidOpt, hval]
        refine ⟨"Invalid transferMode value".data, ?_, ?_⟩
        · unfold validateProfile
          rw [if_neg hA, if_neg (by simp [hB]), if_pos hC]
        · exact herr _ (by
            unfold validateProfile
            rw [if_neg hA, if_neg (by simp [hB]), if_pos hC])
  · intro v hv hval
    by_cases hA : p.sourcePath = none ∨ p.destinationRoot = none
        ∨ p.cameraLabel = none
    · refine ⟨"Missing required fields".data, ?_, ?_⟩
      · unfold validateProfile
        rw [if_pos hA]
      · exact herr _ (by unfold validateProfile; rw [if_pos hA])
    · have hB : invalidOpt ["rename".data, "replace".data] p.onCollision
          = true := by
        rw [hv]
        simp [invalidOpt, hval]
      refine ⟨"Invalid onCollision value".data, ?_, ?_⟩
      · unfold validateProfile
        rw [if_neg hA, if_pos hB]
      · exact herr _ (by unfold validateProfile; rw [if_neg hA, if_pos hB])

/-- The C9 witness profile: required fields present, `transferMode` set
to the unrecognized value `teleport`. -/
def c9BadProfile : Profile :=
  { sourcePath := some ("/src".data)
    destinationRoot := some ("/dst".data)
    cameraLabel := some ("CAM".data)
    transferMode := some ("teleport".data) }

theorem c9_invalid_config_rejected_witness :
    (c9BadProfile.transferMode = some ("teleport".data)
      ∧ ("teleport".data : Str) ∉ ["copy".data, "move".data])
    ∧ ∃ e, validateProfile c9BadProfile = .error e
        ∧ runImportModel c9BadProfile .nilE = .error e :=
  ⟨⟨rfl, by decide⟩,
    (c9_invalid_config_rejected c9BadProfile .nilE).1 ("teleport".data)
      rfl (by decide)⟩

/-- The C10 source tree: a directory whose name carries the sidecar
prefix holding a qualifying file, a sidecar-prefixed file, and a plain
file. -/
def c10Tree : FsTree :=
  .dirE ("._foo".data) (.fileE ("a.jpg".data) .nilE)
    (.fileE ("._b.jpg".data) (.fileE ("c.jpg".data) .nilE))

/-- C10: the `._` sidecar skip applies only to regular files: the file
`._b.jpg` never appears, yet the directory `._foo` is still descended
into — so `a.jpg` inside it does appear in the scan output — unless the
directory's exact name is listed in `excludeFolders`. -/
theorem c10_sidecar_skip_files_only :
    scanEntries [".jpg".data] [] [] ("root".data) c10Tree
      = ["root/._foo/a.jpg".data, "root/c.jpg".data]
    ∧ scanEntries [".jpg".data] [] ["._foo".data] ("root".data) c10Tree
      = ["root/c.jpg".data]
    ∧ scanFiles [".jpg".data] [] [] false [] [] ("root".data) c10Tree
      = [⟨["root/._foo/a.jpg".data], "root/._foo/a.jpg".data, []⟩,
         ⟨["root/c.jpg".data], "root/c.jpg".data, []⟩] := by decide

/-! ### Placeholder-template grammar, for the general substitution claim

A filename template is an interleaving of literal fragments (text with no
placeholder-opening brace) and the three placeholders; `render` turns a
piece list into the template string fed to `generateTargetPath`, and
`substP` is first-occurrence-only substitution expressed at the piece
level — the comparand showing which occurrences the code substitutes. -/

/-- One piece of a filename template. -/
inductive TplPiece where
  | lit (s : Str)
  | dateP
  | timeP
  | cameraP
deriving DecidableEq, Repr

/-- The `{date}` placeholder text. -/
def phDate : Str := "{date}".data

/-- The `{time}` placeholder text. -/
def phTime : Str := "{time}".data

/-- The `{camera}` placeholder text. -/
def phCamera : Str := "{camera}".data

/-- The text of one template piece. -/
def pieceStr : TplPiece → Str
  | .lit s => s
  | .dateP => phDate
  | .timeP => phTime
  | .cameraP => phCamera

/-- Rendering a piece list into the template string. -/
def render : List TplPiece → Str
  | [] => []
  | p :: rest => pieceStr p ++ render rest

/-- First-occurrence-only substitution at the piece level: the first
piece equal to `target` becomes the literal `v`; every later occurrence
is untouched. -/
def substP (target : TplPiece) (v : Str) : List TplPiece → List TplPiece
  | [] => []
  | p :: rest =>
      if p = target then .lit v :: rest else p :: substP target v rest

theorem replaceFirst_append_of_head_notMem (c : Char) (pt r : Str) :
    ∀ x X : Str, c ∉ x →
      replaceFirst (c :: pt) r (x ++ X)
        = x ++ replaceFirst (c :: pt) r X := by
  intro x
  induction x with
  | nil => intro X _; rfl
  | cons a as ih =>
    intro X h
    have hca : c ≠ a := fun he => h (he ▸ List.mem_cons_self a as)
    rw [List.cons_append, replaceFirst]
    have hcond : (c :: pt).isPrefixOf (a :: (as ++ X)) = false := by
      simp only [List.isPrefixOf, Bool.and_eq_false_iff]
      left
      simpa using hca
    rw [hcond]
    simp only [Bool.false_eq_true, if_false]
    rw [ih X (fun hm => h (List.mem_cons_of_mem _ hm)), List.cons_append]

theorem replaceFirst_step_over (c a b : Char) (pt qt r X : Str)
    (hab : a ≠ b) (hcb : c ≠ b) (hcq : c ∉ qt) :
    replaceFirst (c :: a :: pt) r ((c :: b :: qt) ++ X)
      = (c :: b :: qt) ++ replaceFirst (c :: a :: pt) r X := by
  rw [List.cons_append, replaceFirst]
  have hcond : (c :: a :: pt).isPrefixOf (c :: ((b :: qt) ++ X))
      = false := by
    simp only [List.isPrefixOf, Bool.and_eq_false_iff]
    right
    left
    simpa using hab
  rw [hcond]
  simp only [Bool.false_eq_true, if_false]
  rw [replaceFirst_append_of_head_notMem c (a :: pt) r (b :: qt) X
    (by
      intro hm
      rcases List.mem_cons.mp hm with h | h
      · exact hcb h
      · exact hcq h)]
  simp [List.cons_append]

theorem replaceFirst_render_date (v : Str) :
    ∀ ts : List TplPiece, (∀ s, TplPiece.lit s ∈ ts → lbraceChar ∉ s) →
      replaceFirst phDate v (render ts)
        = render (substP TplPiece.dateP v ts) := by
  intro ts
  induction ts with
  | nil =>
    intro _
    show replaceFirst phDate v [] = []
    rw [replaceFirst, if_neg (by decide)]
  | cons p rest ih =>
    intro hl
    have hrest : ∀ s, TplPiece.lit s ∈ rest → lbraceChar ∉ s :=
      fun s hs => hl s (List.mem_cons_of_mem _ hs)
    cases p with
    | lit s =>
      have hs : lbraceChar ∉ s := hl s (List.mem_cons_self _ _)
      show replaceFirst phDate v (s ++ render rest)
        = s ++ render (substP TplPiece.dateP v rest)
      rw [show phDate = lbraceChar :: phDate.drop 1 from by decide]
      rw [replaceFirst_append_of_head_notMem lbraceChar (phDate.drop 1) v s
        (render rest) hs]
      rw [← (show phDate = lbraceChar :: phDate.drop 1 from by decide)]
      rw [ih hrest]
    | dateP =>
      show replaceFirst phDate v (phDate ++ render rest) = v ++ render rest
      exact replaceFirst_append_self phDate v (render rest)
    | timeP =>
      show replaceFirst phDate v (phTime ++ render rest)
        = phTime ++ render (substP TplPiece.dateP v rest)
      rw [show phDate = lbraceChar :: 'd' :: phDate.drop 2 from by decide,
        show phTime = lbraceChar :: 't' :: phTime.drop 2 from by decide]
      rw [replaceFirst_step_over lbraceChar 'd' 't' (phDate.drop 2)
        (phTime.drop 2) v (render rest) (by decide) (by decide) (by decide)]
      rw [← (show phDate = lbraceChar :: 'd' :: phDate.drop 2 from by decide),
        ← (show phTime = lbraceChar :: 't' :: phTime.drop 2 from by decide)]
      rw [ih hrest]
    | cameraP =>
      show replaceFirst phDate v (phCamera ++ render rest)
        = phCamera ++ render (substP TplPiece.dateP v rest)
      rw [show phDate = lbraceChar :: 'd' :: phDate.drop 2 from by decide,
        show phCamera = lbraceChar :: 'c' :: phCamera.drop 2 from by decide]
      rw [replaceFirst_step_over lbraceChar 'd' 'c' (phDate.drop 2)
        (phCamera.drop 2) v (render rest) (by decide) (by decide) (by decide)]
      rw [← (show phDate = lbraceChar :: 'd' :: phDate.drop 2 from by decide),
        ← (show phCamera = lbraceChar :: 'c' :: phCamera.drop 2 from
          by decide)]
      rw [ih hrest]

theorem replaceFirst_render_time (v : Str) :
    ∀ ts : List TplPiece, (∀ s, TplPiece.lit s ∈ ts → lbraceChar ∉ s) →
      replaceFirst phTime v (render ts)
        = render (substP TplPiece.timeP v ts) := by
  intro ts
  induction ts with
  | nil =>
    intro _
    show replaceFirst phTime v [] = []
    rw [replaceFirst, if_neg (by decide)]
  | cons p rest ih =>
    intro hl
    have hrest : ∀ s, TplPiece.lit s ∈ rest → lbraceChar ∉ s :=
      fun s hs => hl s (List.mem_cons_of_mem _ hs)
    cases p with
    | lit s =>
      have hs : lbraceChar ∉ s := hl s (List.mem_cons_self _ _)
      show replaceFirst phTime v (s ++ render rest)
        = s ++ render (substP TplPiece.timeP v rest)
      rw [show phTime = lbraceChar :: phTime.drop 1 from by decide]
      rw [replaceFirst_append_of_head_notMem lbraceChar (phTime.drop 1) v s
        (render rest) hs]
      rw [← (show phTime = lbraceChar :: phTime.drop 1 from by decide)]
      rw [ih hrest]
    | dateP =>
      show replaceFirst phTime v (phDate ++ render rest)
        = phDate ++ render (substP TplPiece.timeP v rest)
      rw [show phTime = lbraceChar :: 't' :: phTime.drop 2 from by decide,
        show phDate = lbraceChar :: 'd' :: phDate.drop 2 from by decide]
      rw [replaceFirst_step_over lbraceChar 't' 'd' (phTime.drop 2)
        (phDate.drop 2) v (render rest) (by decide) (by decide) (by decide)]
      rw [← (show phTime = lbraceChar :: 't' :: phTime.drop 2 from by decide),
        ← (show phDate = lbraceChar :: 'd' :: phDate.drop 2 from by decide)]
      rw [ih hrest]
    | timeP =>
      show replaceFirst phTime v (phTime ++ render rest) = v ++ render rest
      exact replaceFirst_append_self phTime v (render rest)
    | cameraP =>
      show replaceFirst phTime v (phCamera ++ render rest)
        = phCamera ++ render (substP TplPiece.timeP v rest)
      rw [show phTime = lbraceChar :: 't' :: phTime.drop 2 from by decide,
        show phCamera = lbraceChar :: 'c' :: phCamera.drop 2 from by decide]
      rw [replaceFirst_step_over lbraceChar 't' 'c' (phTime.drop 2)
        (phCamera.drop 2) v (render rest) (by decide) (by decide) (by decide)]
      rw [← (show phTime = lbraceChar :: 't' :: phTime.drop 2 from by decide),
        ← (show phCamera = lbraceChar :: 'c' :: phCamera.drop 2 from
          by decide)]
      rw [ih hrest]

theorem replaceFirst_render_camera (v : Str) :
    ∀ ts : List TplPiece, (∀ s, TplPiece.lit s ∈ ts → lbraceChar ∉ s) →
      replaceFirst phCamera v (render ts)
        = render (substP TplPiece.cameraP v ts) := by
  intro ts
  induction ts with
  | nil =>
    intro _
    show replaceFirst phCamera v [] = []
    rw [replaceFirst, if_neg (by decide)]
  | cons p rest ih =>
    intro hl
    have hrest : ∀ s, TplPiece.lit s ∈ rest → lbraceChar ∉ s :=
      fun s hs => hl s (List.mem_cons_of_mem _ hs)
    cases p with
    | lit s =>
      have hs : lbraceChar ∉ s := hl s (List.mem_cons_self _ _)
      show replaceFirst phCamera v (s ++ render rest)
        = s ++ render (substP TplPiece.cameraP v rest)
      rw [show phCamera = lbraceChar :: phCamera.drop 1 from by decide]
      rw [replaceFirst_append_of_head_notMem lbraceChar (phCamera.drop 1) v
        s (render rest) hs]
      rw [← (show phCamera = lbraceChar :: phCamera.drop 1 from by decide)]
      rw [ih hrest]
    | dateP =>
      show replaceFirst phCamera v (phDate ++ render rest)
        = phDate ++ render (substP TplPiece.cameraP v rest)
      rw [show phCamera = lbraceChar :: 'c' :: phCamera.drop 2 from
          by decide,
        show phDate = lbraceChar :: 'd' :: phDate.drop 2 from by decide]
      rw [replaceFirst_step_over lbraceChar 'c' 'd' (phCamera.drop 2)
        (phDate.drop 2) v (render rest) (by decide) (by decide) (by decide)]
      rw [← (show phCamera = lbraceChar :: 'c' :: phCamera.drop 2 from
          by decide),
        ← (show phDate = lbraceChar :: 'd' :: phDate.drop 2 from by decide)]
      rw [ih hrest]
    | timeP =>
      show replaceFirst phCamera v (phTime ++ render rest)
        = phTime ++ render (substP TplPiece.cameraP v rest)
      rw [show phCamera = lbraceChar :: 'c' :: phCamera.drop 2 from
          by decide,
        show phTime = lbraceChar :: 't' :: phTime.drop 2 from by decide]
      rw [replaceFirst_step_over lbraceChar 'c' 't' (phCamera.drop 2)
        (phTime.drop 2) v (render rest) (by decide) (by decide) (by decide)]
      rw [← (show phCamera = lbraceChar :: 'c' :: phCamera.drop 2 from
          by decide),
        ← (show phTime = lbraceChar :: 't' :: phTime.drop 2 from by decide)]
      rw [ih hrest]
    | cameraP =>
      show replaceFirst phCamera v (phCamera ++ render rest)
        = v ++ render rest
      exact replaceFirst_append_self phCamera v (render rest)

theorem substP_lits (target : TplPiece) (v : Str) (hv : lbraceChar ∉ v) :
    ∀ ts : List TplPiece, (∀ s, TplPiece.lit s ∈ ts → lbraceChar ∉ s) →
      ∀ s, TplPiece.lit s ∈ substP target v ts → lbraceChar ∉ s := by
  intro ts
  induction ts with
  | nil =>
    intro _ s hs
    rw [substP] at hs
    simp at hs
  | cons p rest ih =>
    intro hl s hs
    rw [substP] at hs
    by_cases hp : p = target
    · rw [if_pos hp] at hs
      rcases List.mem_cons.mp hs with h | h
      · have hsv : s = v := by
          simpa using h
        rw [hsv]
        exact hv
      · exact hl s (List.mem_cons_of_mem _ h)
    · rw [if_neg hp] at hs
      rcases List.mem_cons.mp hs with h | h
      · exact hl s (h ▸ List.mem_cons_self p rest)
      · exact ih (fun s' hs' => hl s' (List.mem_cons_of_mem _ hs')) s h

theorem substP_mem_self (target : TplPiece) (v : Str) :
    ∀ ts : List TplPiece, 2 ≤ ts.count target →
      target ∈ substP target v ts := by
  intro ts
  induction ts with
  | nil => intro h; simp at h
  | cons p rest ih =>
    intro h
    rw [substP]
    by_cases hp : p = target
    · rw [if_pos hp]
      apply List.mem_cons_of_mem
      have h1 : 1 ≤ rest.count target := by
        rw [hp, List.count_cons_self] at h
        omega
      exact List.count_pos_iff.mp h1
    · rw [if_neg hp]
      apply List.mem_cons_of_mem
      apply ih
      rw [List.count_cons_of_ne (fun he => hp he.symm)] at h
      exact h

theorem substP_mem_ne (t target : TplPiece) (v : Str)
    (h1 : t ≠ target) :
    ∀ ts : List TplPiece, t ∈ ts → t ∈ substP target v ts := by
  intro ts
  induction ts with
  | nil => intro h; simp at h
  | cons p rest ih =>
    intro h
    rw [substP]
    by_cases hp : p = target
    · rw [if_pos hp]
      rcases List.mem_cons.mp h with h0 | h0
      · exact absurd (h0.trans hp) h1
      · exact List.mem_cons_of_mem _ h0
    · rw [if_neg hp]
      rcases List.mem_cons.mp h with h0 | h0
      · rw [h0]
        exact List.mem_cons_self p _
      · exact List.mem_cons_of_mem _ (ih h0)

theorem containsSub_self_append (p Z : Str) :
    containsSub (p ++ Z) p = true := by
  cases p with
  | nil =>
    rw [List.nil_append]
    cases Z with
    | nil => simp [containsSub, List.isPrefixOf]
    | cons z zs => simp [containsSub, List.isPrefixOf]
  | cons c pt =>
    rw [List.cons_append, containsSub]
    have hpre : (c :: pt).isPrefixOf (c :: (pt ++ Z)) = true := by
      rw [← List.cons_append]
      exact List.isPrefixOf_iff_prefix.mpr (List.prefix_append _ _)
    rw [hpre]
    rfl

theorem containsSub_append_right (X Y p : Str)
    (h : containsSub Y p = true) : containsSub (X ++ Y) p = true := by
  induction X with
  | nil => simpa using h
  | cons c cs ih =>
    rw [List.cons_append, containsSub, ih]
    simp

theorem containsSub_append_left (X Y p : Str)
    (h : containsSub X p = true) : containsSub (X ++ Y) p = true := by
  induction X with
  | nil =>
    rw [containsSub] at h
    simp only [Bool.or_eq_true] at h
    rcases h with h | h
    · have hp : p = [] := by
        cases p with
        | nil => rfl
        | cons a as => simp [List.isPrefixOf] at h
      rw [hp]
      cases Y with
      | nil => simp [containsSub, List.isPrefixOf]
      | cons y ys => simp [containsSub, List.isPrefixOf]
    · simp at h
  | cons c cs ih =>
    rw [containsSub] at h
    simp only [Bool.or_eq_true] at h
    rw [List.cons_append, containsSub]
    rcases h with h | h
    · have hinf : p <+: (c :: cs) := List.isPrefixOf_iff_prefix.mp h
      have : p <+: (c :: cs) ++ Y := hinf.trans (List.prefix_append _ _)
      rw [List.cons_append] at this
      rw [List.isPrefixOf_iff_prefix.mpr this]
      rfl
    · rw [ih h]
      simp

theorem mem_render_containsSub (t : TplPiece) :
    ∀ ts : List TplPiece, t ∈ ts →
      containsSub (render ts) (pieceStr t) = true := by
  intro ts
  induction ts with
  | nil => intro h; simp at h
  | cons p rest ih =>
    intro h
    rw [render]
    rcases List.mem_cons.mp h with h | h
    · rw [h]
      exact containsSub_self_append _ _
    · exact containsSub_append_right (pieceStr p) (render rest)
        (pieceStr t) (ih h)

theorem substP_count_ne (t target : TplPiece) (v : Str)
    (h1 : t ≠ target) (h2 : t ≠ TplPiece.lit v) :
    ∀ ts : List TplPiece, (substP target v ts).count t = ts.count t := by
  intro ts
  induction ts with
  | nil => rfl
  | cons p rest ih =>
    rw [substP]
    by_cases hp : p = target
    · rw [if_pos hp]
      rw [List.count_cons_of_ne h2,
        List.count_cons_of_ne (by rw [hp]; exact h1)]
    · rw [if_neg hp]
      rw [List.count_cons, List.count_cons, ih]

/-- C2 (amended): substitution is JavaScript single-occurrence string
replacement.  For every placeholder template — an arbitrary interleaving
of brace-free literal fragments and `{date}`/`{time}`/`{camera}`
placeholder pieces — the produced base filename is exactly the rendering
of the piece list after substituting only the FIRST occurrence of each
placeholder (`substP`); consequently, whenever any placeholder occurs
more than once in the template, a later occurrence of it survives
literally in the produced base filename. -/
theorem c2_amended (off : Int) (date : JSDate) (cam path root : Str)
    (ts : List TplPiece)
    (hl : ∀ s, TplPiece.lit s ∈ ts → lbraceChar ∉ s) :
    (generateTargetPath off date cam path root (render ts)).baseFilename
      = render (substP TplPiece.cameraP cam
          (substP TplPiece.timeP
            (replaceAllChar ':' '-' (timeHMS off date))
            (substP TplPiece.dateP (isoDateStr date) ts)))
        ++ extnameL path
    ∧ (2 ≤ ts.count TplPiece.dateP →
        containsSub (generateTargetPath off date cam path root
          (render ts)).baseFilename phDate = true)
    ∧ (2 ≤ ts.count TplPiece.timeP →
        containsSub (generateTargetPath off date cam path root
          (render ts)).baseFilename phTime = true)
    ∧ (2 ≤ ts.count TplPiece.cameraP →
        containsSub (generateTargetPath off date cam path root
          (render ts)).baseFilename phCamera = true) := by
  have hl1 : ∀ s, TplPiece.lit s
      ∈ substP TplPiece.dateP (isoDateStr date) ts → lbraceChar ∉ s :=
    substP_lits _ _ (lbrace_notMem_isoDateStr date) ts hl
  have hl2 : ∀ s, TplPiece.lit s
      ∈ substP TplPiece.timeP (replaceAllChar ':' '-' (timeHMS off date))
        (substP TplPiece.dateP (isoDateStr date) ts) → lbraceChar ∉ s :=
    substP_lits _ _ (lbrace_notMem_hyphenTime off date) _ hl1
  have hmain :
      (generateTargetPath off date cam path root
          (render ts)).baseFilename
        = render (substP TplPiece.cameraP cam
            (substP TplPiece.timeP
              (replaceAllChar ':' '-' (timeHMS off date))
              (substP TplPiece.dateP (isoDateStr date) ts)))
          ++ extnameL path := by
    rw [generateTargetPath_baseFilename,
      show ("{date}".data : Str) = phDate from rfl,
      show ("{time}".data : Str) = phTime from rfl,
      show ("{camera}".data : Str) = phCamera from rfl]
    rw [replaceFirst_render_date (isoDateStr date) ts hl]
    rw [replaceFirst_render_time
      (replaceAllChar ':' '-' (timeHMS off date)) _ hl1]
    rw [replaceFirst_render_camera cam _ hl2]
  refine ⟨hmain, ?_, ?_, ?_⟩
  · intro h2
    rw [hmain]
    apply containsSub_append_left
    have hm : TplPiece.dateP
        ∈ substP TplPiece.cameraP cam
            (substP TplPiece.timeP
              (replaceAllChar ':' '-' (timeHMS off date))
              (substP TplPiece.dateP (isoDateStr date) ts)) :=
      substP_mem_ne _ _ _ (by simp) _
        (substP_mem_ne _ _ _ (by simp) _
          (substP_mem_self _ _ ts h2))
    exact mem_render_containsSub TplPiece.dateP _ hm
  · intro h2
    rw [hmain]
    apply containsSub_append_left
    have hc1 : 2 ≤ (substP TplPiece.dateP (isoDateStr date) ts).count
        TplPiece.timeP := by
      rw [substP_count_ne TplPiece.timeP TplPiece.dateP _ (by simp)
        (by simp) ts]
      exact h2
    have hm : TplPiece.timeP
        ∈ substP TplPiece.cameraP cam
            (substP TplPiece.timeP
              (replaceAllChar ':' '-' (timeHMS off date))
              (substP TplPiece.dateP (isoDateStr date) ts)) :=
      substP_mem_ne _ _ _ (by simp) _
        (substP_mem_self _ _ _ hc1)
    exact mem_render_containsSub TplPiece.timeP _ hm
  · intro h2
    rw [hmain]
    apply containsSub_append_left
    have hc1 : 2 ≤ (substP TplPiece.dateP (isoDateStr date) ts).count
        TplPiece.cameraP := by
      rw [substP_count_ne TplPiece.cameraP TplPiece.dateP _ (by simp)
        (by simp) ts]
      exact h2
    have hc2 : 2 ≤ (substP TplPiece.timeP
        (replaceAllChar ':' '-' (timeHMS off date))
        (substP TplPiece.dateP (isoDateStr date) ts)).count
          TplPiece.cameraP := by
      rw [substP_count_ne TplPiece.cameraP TplPiece.timeP _ (by simp)
        (by simp) _]
      exact hc1
    have hm : TplPiece.cameraP
        ∈ substP TplPiece.cameraP cam
            (substP TplPiece.timeP
              (replaceAllChar ':' '-' (timeHMS off date))
              (substP TplPiece.dateP (isoDateStr date) ts)) :=
      substP_mem_self _ _ _ hc2
    exact mem_render_containsSub TplPiece.cameraP _ hm

/-- The C2 witness template: `{date}_{date}`, as a piece list. -/
def c2Ts : List TplPiece :=
  [TplPiece.dateP, TplPiece.lit ("_".data), TplPiece.dateP]

theorem c2_amended_witness :
    ((∀ s, TplPiece.lit s ∈ c2Ts → lbraceChar ∉ s)
      ∧ 2 ≤ c2Ts.count TplPiece.dateP
      ∧ render c2Ts = "{date}_{date}".data)
    ∧ (generateTargetPath 0 ⟨0⟩ ("CAM".data) ("/a/b.jpg".data)
        ("dst".data) (render c2Ts)).baseFilename
      = render (substP TplPiece.cameraP ("CAM".data)
          (substP TplPiece.timeP (replaceAllChar ':' '-' (timeHMS 0 ⟨0⟩))
            (substP TplPiece.dateP (isoDateStr ⟨0⟩) c2Ts)))
        ++ extnameL ("/a/b.jpg".data)
    ∧ containsSub (generateTargetPath 0 ⟨0⟩ ("CAM".data)
        ("/a/b.jpg".data) ("dst".data) (render c2Ts)).baseFilename phDate
      = true := by
  have hl : ∀ s, TplPiece.lit s ∈ c2Ts → lbraceChar ∉ s := by
    intro s hs
    have hse : s = "_".data := by
      simpa [c2Ts] using hs
    rw [hse]
    decide
  refine ⟨⟨hl, by decide, by decide⟩, ?_, ?_⟩
  · exact (c2_amended 0 ⟨0⟩ ("CAM".data) ("/a/b.jpg".data) ("dst".data)
      c2Ts hl).1
  · exact (c2_amended 0 ⟨0⟩ ("CAM".data) ("/a/b.jpg".data) ("dst".data)
      c2Ts hl).2.1 (by decide)

example :
    render (substP TplPiece.cameraP ("CAM".data)
        (substP TplPiece.timeP (replaceAllChar ':' '-' (timeHMS 0 ⟨0⟩))
          (substP TplPiece.dateP (isoDateStr ⟨0⟩) c2Ts)))
      ++ extnameL ("/a/b.jpg".data)
      = "1970-01-01_{date}.jpg".data := by decide
